import Mathlib

/-!
Shallow embedding of the `mutent-couchdb` CouchDB adapter
(`src/mutent-couchdb.mjs`): query classification, view/Mango pagination,
parameter validation, and document writing.  JavaScript numbers that the
adapter inspects are modelled as rationals plus an explicit positive
infinity; `undefined` is a dedicated constructor.  The asynchronous
generators are modelled as fuel-bounded functions that return the list of
emitted documents together with an instrumented trace of the page requests
issued (each request is recorded with the number of documents emitted
before it) and an optional error.  The HTTP collaborator (`nano`) is an
explicit function parameter from request bodies to responses.
-/

/-- JavaScript values the adapter inspects: `undefined`, numbers
(rationals plus positive infinity), strings, and arrays of strings. -/
inductive JsVal where
  | undef
  | num (q : ℚ)
  | inf
  | str (s : String)
  | arr (xs : List String)
deriving DecidableEq

/-- Errors thrown by the adapter (`TypeError` and plain `Error`), plus a
marker for fuel exhaustion of the loop model. -/
inductive CouchErr where
  | typeError (msg : String)
  | error (msg : String)
  | fuel
deriving DecidableEq

/-- Document field values. -/
inductive DVal where
  | str (s : String)
  | int (n : ℤ)
  | bool (b : Bool)
  | null
deriving DecidableEq

/-- A CouchDB document as a JavaScript object: association list of fields
in insertion order (keys unique in a real JS object). -/
abbrev Doc := List (String × DVal)

/-- Source function `isPositiveInteger`: the value must be a number, an
integer, and strictly positive.  `Infinity` is a number but not an
integer. -/
def isPositiveInteger : JsVal → Bool
  | .num q => q.den == 1 && 0 < q.num
  | _ => false

/-- The logical limit: a finite (integer) count or `Infinity`. -/
inductive ELimit where
  | inf
  | fin (n : ℤ)
deriving DecidableEq

/-- Computes `Math.min(readSize, limit)` where `readSize` is a natural number and
`limit` may be `Infinity`. -/
def ELimit.minR : ELimit → Nat → ℤ
  | .inf, r => r
  | .fin n, r => min (r : ℤ) n

/-- Test `limit > 0`. -/
def ELimit.pos : ELimit → Bool
  | .inf => true
  | .fin n => 0 < n

/-- Decrement `limit--` iterated `c` times (`Infinity` is a fixed point, as in JS). -/
def ELimit.subN : ELimit → Nat → ELimit
  | .inf, _ => .inf
  | .fin n, c => .fin (n - c)

/-- Source function `parseQueryLimit`: default `Infinity`; throws a
`TypeError` unless the value is a positive integer or `Infinity`. -/
def parseQueryLimit (v : JsVal) : Except CouchErr ELimit :=
  let value := match v with | .undef => JsVal.inf | w => w
  if !(isPositiveInteger value) && value != JsVal.inf then
    .error (.typeError "Invalid query limit")
  else
    .ok (match value with
      | .num q => ELimit.fin q.num
      | _ => ELimit.inf)

/-- Source function `parseReadSize`: default `50`; throws a `TypeError`
unless the value is a positive integer. -/
def parseReadSize (v : JsVal) : Except CouchErr Nat :=
  let value := match v with | .undef => JsVal.num 50 | w => w
  if !(isPositiveInteger value) then
    .error (.typeError "Invalid read size")
  else
    .ok (match value with
      | .num q => q.num.toNat
      | _ => 0)

/-- Insertion of a key list into a `Map`: later duplicates keep the original
position (JS `Map.set` on an existing key updates in place). -/
def mapSetAll (ks : List String) : List String :=
  ks.foldl (fun acc k => if k ∈ acc then acc else acc ++ [k]) []

/-- Source function `pushKeys`: the value must be a non-empty array;
its elements are loaded into a `Map` (deduplicating, first occurrence
order preserved). -/
def pushKeys : JsVal → Except CouchErr (List String)
  | .arr ks =>
    if ks.isEmpty then .error (.error "Expected at least one key")
    else .ok (mapSetAll ks)
  | _ => .error (.typeError "View keys must be an array")

/-- The loop body of `pullKeys`: walk the map, moving keys into `arr`
while `arr.length < count`; return `arr` on the first key that does not
fit.  If the map is exhausted first the JS function falls off the end of
the loop and returns `undefined` (modelled as `none`), having deleted
every key it visited. -/
def pullKeysGo : List String → List String → ℤ → Option (List String) × List String
  | [], _, _ => (none, [])
  | k :: rest, arr, count =>
    if (arr.length : ℤ) < count then pullKeysGo rest (arr ++ [k]) count
    else (some arr, k :: rest)

/-- Source function `pullKeys(map, count)`, returning the chunk (or
`undefined`) together with the remaining map contents. -/
def pullKeys (ks : List String) (count : ℤ) : Option (List String) × List String :=
  pullKeysGo ks [] count

/-- One row of a view response.  A `not_found` row for a missing key has
no `id` and no `doc` (both `undefined`). -/
structure Row where
  id : Option String
  key : String
  doc : Option Doc
deriving DecidableEq

/-- Regex test `/^_design/.test(row.id)`: the id must begin with the reserved
design-document marker `_design`; an `undefined` id is coerced to the
string `"undefined"`, which does not match.  (Stated on the character
data so that it evaluates structurally.) -/
def rowIsDesign : Option String → Bool
  | some s => "_design".data.isPrefixOf s.data
  | none => false

/-- The document a row contributes, if any: skipped when the id matches
the design-document prefix or when the row carries no document. -/
def rowEmit (r : Row) : Option Doc :=
  if rowIsDesign r.id then none else r.doc

/-- The mutable request body of `filterView`.  Fields the loop never
reads nor writes (`descending`, `inclusive_end`, `group`, `reduce`,
`include_docs`, `sorted`, `stable`, `update`, `update_seq`,
`attachments`, `att_encoding_info`, `conflicts`) are copied verbatim from
the query into every request and are omitted here. -/
structure ViewBody where
  keys : Option (List String)
  limit : ℤ
  skip : Option ℤ
  startkey : Option String
  startkey_docid : Option String
  endkey : Option String
  endkey_docid : Option String
  key : Option String
deriving DecidableEq

/-- A one-page view response from the collaborator. -/
structure ViewResponse where
  rows : List Row
deriving DecidableEq

/-- The inner `for (const row of response.rows)` loop of `filterView`:
emit non-design rows that carry a document (decrementing the limit), and,
when not in key-list mode, slide `startkey`/`startkey_docid` to each
row. -/
def processRows (keyMode : Bool) :
    List Row → ViewBody → ELimit → List Doc × ViewBody × ELimit
  | [], body, limit => ([], body, limit)
  | row :: rest, body, limit =>
    let e := rowEmit row
    let limit1 := if e.isSome then limit.subN 1 else limit
    let body1 := if keyMode then body
      else { body with startkey := some row.key, startkey_docid := row.id }
    let pr := processRows keyMode rest body1 limit1
    (e.toList ++ pr.1, pr.2.1, pr.2.2)

/-- A recorded page request: the body sent, together with the number of
documents emitted before the request was issued. -/
structure ViewReqLog where
  body : ViewBody
  emittedBefore : Nat
deriving DecidableEq

/-- Result of running a paginated view sequence to completion (or out of
fuel): emitted documents, request trace, optional error. -/
structure ViewOut where
  emitted : List Doc
  reqs : List ViewReqLog
  err : Option CouchErr
deriving DecidableEq

/-- The `while (limit > 0)` loop of `filterView`.  `keys` is the key
`Map` (`some` exactly when an explicit key list was supplied, possibly
empty), `n` is the count of documents emitted so far (instrumentation
only: in the source it is recoverable as the initial limit minus
`limit`). -/
def viewLoop (server : ViewBody → ViewResponse) (readSize : Nat) :
    Nat → ViewBody → ELimit → Option (List String) → Nat → ViewOut
  | 0, _, _, _, _ => ⟨[], [], some .fuel⟩
  | fuel + 1, body, limit, keys, n =>
    if limit.pos = false then ⟨[], [], none⟩
    else
      let resp := server body
      let pr := processRows keys.isSome resp.rows body limit
      let log : ViewReqLog := ⟨body, n⟩
      if (resp.rows.length : ℤ) < body.limit then ⟨pr.1, [log], none⟩
      else
        let newLim := pr.2.2.minR readSize
        let body2 : ViewBody := { pr.2.1 with limit := newLim }
        let next :=
          match keys with
          | some m =>
            viewLoop server readSize fuel
              { body2 with keys := (pullKeys m newLim).1, skip := none } pr.2.2
              (some (pullKeys m newLim).2) (n + pr.1.length)
          | none =>
            viewLoop server readSize fuel
              { body2 with skip := some 1 } pr.2.2 none (n + pr.1.length)
        ⟨pr.1 ++ next.emitted, log :: next.reqs, next.err⟩

/-- The view-query fields `filterView` reads.  `keys` is `some v` when
the query carries a `keys` property with JS value `v`. -/
structure ViewQuery where
  keys : Option JsVal
  limit : JsVal
  skip : Option ℤ
  startkey : Option String
  startkey_docid : Option String
  endkey : Option String
  endkey_docid : Option String
  key : Option String
deriving DecidableEq

/-- Per-call unwrap options. -/
structure Options where
  readSize : JsVal
deriving DecidableEq

/-- Source method `filterView`: validate `keys` (via `pushKeys`),
`readSize` and `limit`, build the initial request body (seeding the key
chunk via `pullKeys` in key-list mode, or the start/end cursor fields
otherwise), then run the pagination loop. -/
def filterView (query : ViewQuery) (options : Options)
    (server : ViewBody → ViewResponse) (fuel : Nat) : ViewOut :=
  match (match query.keys with
         | none => Except.ok (Option.none)
         | some kv => (pushKeys kv).map Option.some) with
  | .error e => ⟨[], [], some e⟩
  | .ok keys =>
    match parseReadSize options.readSize with
    | .error e => ⟨[], [], some e⟩
    | .ok readSize =>
      match parseQueryLimit query.limit with
      | .error e => ⟨[], [], some e⟩
      | .ok limit =>
        let body0 : ViewBody :=
          { keys := none
            limit := limit.minR readSize
            skip := query.skip
            startkey := none
            startkey_docid := none
            endkey := none
            endkey_docid := none
            key := none }
        match keys with
        | some m =>
          let pk := pullKeys m body0.limit
          viewLoop server readSize fuel { body0 with keys := pk.1 } limit
            (some pk.2) 0
        | none =>
          viewLoop server readSize fuel
            { body0 with
                startkey := query.startkey
                startkey_docid := query.startkey_docid
                endkey := query.endkey
                endkey_docid := query.endkey_docid
                key := query.key } limit none 0

/-- The mutable request body of `filterMango`.  Constant passthrough
fields (`fields`, `sort`, `r`, `use_index`, `conflicts`, `stable`,
`update`) are copied verbatim from the query and never read by the loop;
they are omitted.  The selector is an opaque JS object. -/
structure MangoBody where
  bookmark : Option String
  selector : Doc
  limit : ℤ
  skip : Option ℤ
deriving DecidableEq

/-- A one-page `_find` response: the document list may contain falsy
entries (modelled as `none`), an optional continuation bookmark, and an
optional warning string. -/
structure MangoResp where
  docs : List (Option Doc)
  bookmark : Option String
  warning : Option String
deriving DecidableEq

/-- The inner `for (const doc of response.docs)` loop of `filterMango`:
truthy documents are yielded and decrement the limit. -/
def mangoProcess : List (Option Doc) → ELimit → List Doc × ELimit
  | [], limit => ([], limit)
  | some d :: rest, limit =>
    let mp := mangoProcess rest (limit.subN 1)
    (d :: mp.1, mp.2)
  | none :: rest, limit => mangoProcess rest limit

/-- A recorded `_find` page request with the emitted-so-far count. -/
structure MangoReqLog where
  body : MangoBody
  emittedBefore : Nat
deriving DecidableEq

/-- Result of running a paginated Mango sequence: emitted documents,
request trace, surfaced warnings (the source prefixes each with the
database name and writes it to `console.error`; only truthy, i.e.
non-empty, warnings are logged), optional error. -/
structure MangoOut where
  emitted : List Doc
  reqs : List MangoReqLog
  warnings : List String
  err : Option CouchErr
deriving DecidableEq

/-- JS string falsiness: only the empty string is falsy.  (Stated on the
character data so that it evaluates structurally.) -/
def strFalsy (s : String) : Bool := s.data.isEmpty

/-- The `while (limit > 0)` loop of `filterMango`. -/
def mangoLoop (server : MangoBody → MangoResp) (readSize : Nat) :
    Nat → MangoBody → ELimit → Nat → MangoOut
  | 0, _, _, _ => ⟨[], [], [], some .fuel⟩
  | fuel + 1, body, limit, n =>
    if limit.pos = false then ⟨[], [], [], none⟩
    else
      let resp := server body
      let warns := match resp.warning with
        | some w => if strFalsy w then [] else [w]
        | none => []
      let mp := mangoProcess resp.docs limit
      let log : MangoReqLog := ⟨body, n⟩
      if (resp.docs.length : ℤ) < body.limit then ⟨mp.1, [log], warns, none⟩
      else
        let next := mangoLoop server readSize fuel
          { body with
              bookmark := resp.bookmark
              limit := mp.2.minR readSize
              skip := some 0 } mp.2 (n + mp.1.length)
        ⟨mp.1 ++ next.emitted, log :: next.reqs, warns ++ next.warnings, next.err⟩

/-- The Mango-query fields `filterMango` reads. -/
structure MangoQuery where
  selector : Doc
  limit : JsVal
  skip : Option ℤ
deriving DecidableEq

/-- Source method `filterMango`: validate `readSize` and `limit`, build
the initial body (no bookmark on page one), run the loop. -/
def filterMango (query : MangoQuery) (options : Options)
    (server : MangoBody → MangoResp) (fuel : Nat) : MangoOut :=
  match parseReadSize options.readSize with
  | .error e => ⟨[], [], [], some e⟩
  | .ok readSize =>
    match parseQueryLimit query.limit with
    | .error e => ⟨[], [], [], some e⟩
    | .ok limit =>
      mangoLoop server readSize fuel
        { bookmark := none
          selector := query.selector
          limit := limit.minR readSize
          skip := query.skip } limit 0

/-- The object form of a query, carrying the fields `filterEntities`,
`filterView` and `filterMango` inspect.  `selector = some s` models a
query whose `selector` property is truthy (an object). -/
structure QueryObj where
  selector : Option Doc
  design : Option String
  view : Option String
  keys : Option JsVal
  limit : JsVal
  skip : Option ℤ
  startkey : Option String
  startkey_docid : Option String
  endkey : Option String
  endkey_docid : Option String
  key : Option String
deriving DecidableEq

/-- A query value passed to `findEntity` / `filterEntities`: a string, an
array of identifier strings, or an object. -/
inductive CouchQuery where
  | str (s : String)
  | arr (xs : List String)
  | obj (o : QueryObj)
deriving DecidableEq

/-- The strategy `filterEntities` dispatches to. -/
inductive Strategy where
  | byId
  | keyList
  | mango
  | view
deriving DecidableEq

/-- The dispatch order of `filterEntities`: string, array,
`query.selector` truthy, otherwise view. -/
def classify : CouchQuery → Strategy
  | .str _ => .byId
  | .arr _ => .keyList
  | .obj o => if o.selector.isSome then .mango else .view

/-- The view query constructed by the array branch of `filterEntities`:
`filterView({ keys: query })` — every other field is `undefined`. -/
def arrViewQuery (xs : List String) : ViewQuery :=
  { keys := some (.arr xs)
    limit := .undef
    skip := none
    startkey := none
    startkey_docid := none
    endkey := none
    endkey_docid := none
    key := none }

/-- The view-query fields of an object query. -/
def toViewQuery (o : QueryObj) : ViewQuery :=
  { keys := o.keys
    limit := o.limit
    skip := o.skip
    startkey := o.startkey
    startkey_docid := o.startkey_docid
    endkey := o.endkey
    endkey_docid := o.endkey_docid
    key := o.key }

/-- The Mango-query fields of an object query (its selector is truthy
when this is used). -/
def toMangoQuery (o : QueryObj) : MangoQuery :=
  { selector := o.selector.getD []
    limit := o.limit
    skip := o.skip }

/-- Outcome of `filterEntities`: the emitted documents and an optional
error (warnings of the Mango path are dropped here; they go to the
console). -/
structure FilterOut where
  emitted : List Doc
  err : Option CouchErr
deriving DecidableEq

/-- Source method `filterEntities`.  `rdb` models `readDoc`: the
collaborator `GET` with 404 translated to `null`. -/
def filterEntities (vserver : ViewBody → ViewResponse)
    (mserver : MangoBody → MangoResp) (rdb : String → Option Doc)
    (q : CouchQuery) (opts : Options) (fuel : Nat) : FilterOut :=
  match q with
  | .str s =>
    match rdb s with
    | some d => ⟨[d], none⟩
    | none => ⟨[], none⟩
  | .arr xs =>
    let out := filterView (arrViewQuery xs) opts vserver fuel
    ⟨out.emitted, out.err⟩
  | .obj o =>
    if o.selector.isSome then
      let out := filterMango (toMangoQuery o) opts mserver fuel
      ⟨out.emitted, out.err⟩
    else
      let out := filterView (toViewQuery o) opts vserver fuel
      ⟨out.emitted, out.err⟩

/-- Spread `{ ...query, limit: 1 }` for a non-string query: spreading an array
produces a plain object whose own properties are the array indices, so
none of the fields the adapter inspects survive; spreading an object
keeps its fields and overrides `limit`. -/
def findSpread : CouchQuery → CouchQuery
  | .str s => .str s
  | .arr _ => .obj
      { selector := none
        design := none
        view := none
        keys := none
        limit := .num 1
        skip := none
        startkey := none
        startkey_docid := none
        endkey := none
        endkey_docid := none
        key := none }
  | .obj o => .obj { o with limit := .num 1 }

/-- The `limit` property of a query object (used to state that
`findEntity` injects `limit = 1`). -/
def queryLimitOf : CouchQuery → JsVal
  | .str _ => .undef
  | .arr _ => .undef
  | .obj o => o.limit

/-- The `for await` drain of `findEntity`: `null` on an empty sequence,
the document on a singleton, and a thrown `Error` as soon as a second
document is yielded (before any later generator failure); a generator
error interrupting the drain earlier propagates. -/
def drainDocs (docs : List Doc) (err : Option CouchErr) :
    Except CouchErr (Option Doc) :=
  match docs with
  | [] => match err with
    | some e => .error e
    | none => .ok none
  | [d] => match err with
    | some e => .error e
    | none => .ok (some d)
  | _ :: _ :: _ => .error (.error "Expected one iteration at most")

/-- Source method `findEntity`: a string query goes to `readDoc`;
otherwise `filterEntities({ ...query, limit: 1 })` is drained. -/
def findEntity (vserver : ViewBody → ViewResponse)
    (mserver : MangoBody → MangoResp) (rdb : String → Option Doc)
    (q : CouchQuery) (opts : Options) (fuel : Nat) :
    Except CouchErr (Option Doc) :=
  match q with
  | .str s => .ok (rdb s)
  | q =>
    let fo := filterEntities vserver mserver rdb (findSpread q) opts fuel
    drainDocs fo.emitted fo.err

/-- First-match field lookup on a JS object. -/
def objGet : Doc → String → Option DVal
  | [], _ => none
  | (k1, v1) :: rest, k => if k1 = k then some v1 else objGet rest k

/-- Spread `{ ...doc, k: v }`: replace the (first) existing entry for `k` in
place, or append it. -/
def objSet : Doc → String → DVal → Doc
  | [], k, v => [(k, v)]
  | (k1, v1) :: rest, k, v =>
    if k1 = k then (k, v) :: rest else (k1, v1) :: objSet rest k v

/-- The collaborator response to `insert`. -/
structure InsertResp where
  id : String
  rev : String
deriving DecidableEq

/-- Source method `writeDoc`: call `insert(doc, { docName: doc._id,
rev: doc._rev })` and return `{ ...doc, _id: response.id,
_rev: response.rev }`. -/
def writeDoc (insert : Doc → Option DVal → Option DVal → InsertResp)
    (doc : Doc) : Doc :=
  let response := insert doc (objGet doc "_id") (objGet doc "_rev")
  objSet (objSet doc "_id" (.str response.id)) "_rev" (.str response.rev)

/-- A model CouchDB `_all_docs` endpoint over a database given as an
id-sorted association list.  A `keys` request returns one row per key
(missing ids give a row with no `id` and no `doc`); otherwise rows start
at `startkey` (inclusive), honour `skip`, and are truncated to `limit`.
This models the external collaborator, not the repository. -/
def allDocsServer (db : List (String × Doc)) (body : ViewBody) :
    ViewResponse :=
  let lim := body.limit.toNat
  match body.keys with
  | some ks =>
    ⟨(ks.map fun k =>
        match (db.filter fun p => p.1 = k).head? with
        | some p => Row.mk (some p.1) p.1 (some p.2)
        | none => Row.mk none k none).take lim⟩
  | none =>
    let afterStart := match body.startkey with
      | none => db
      | some sk => db.filter fun p => !(p.1 < sk : Bool)
    let skipped := match body.skip with
      | none => afterStart
      | some s => afterStart.drop s.toNat
    ⟨(skipped.take lim).map fun p => Row.mk (some p.1) p.1 (some p.2)⟩

/-- Decidable equality for `Except` results (used to evaluate concrete
runs inside proofs). -/
instance {ε α : Type} [DecidableEq ε] [DecidableEq α] :
    DecidableEq (Except ε α) := fun a b =>
  match a, b with
  | .ok x, .ok y =>
    if h : x = y then .isTrue (h ▸ rfl)
    else .isFalse fun he => h (by cases he; rfl)
  | .error x, .error y =>
    if h : x = y then .isTrue (h ▸ rfl)
    else .isFalse fun he => h (by cases he; rfl)
  | .ok _, .error _ => .isFalse fun he => by cases he
  | .error _, .ok _ => .isFalse fun he => by cases he

/-- The spec-side notion of a valid page-size / limit value: a JS number
holding a positive integer. -/
def IsPosIntVal (v : JsVal) : Prop := ∃ n : ℕ, 0 < n ∧ v = .num (n : ℚ)

/-- A collaborator view endpoint that never returns more rows than the
requested page size (responses to nonsensical page sizes are
unconstrained; the loop never requests them). -/
def ViewHonest (server : ViewBody → ViewResponse) : Prop :=
  ∀ b : ViewBody, 0 < b.limit → ((server b).rows.length : ℤ) ≤ b.limit

/-- A collaborator view endpoint all of whose rows are emittable: no
design-document rows and no rows without a document. -/
def ViewNoSkip (server : ViewBody → ViewResponse) : Prop :=
  ∀ b : ViewBody, 0 < b.limit → ∀ r ∈ (server b).rows, (rowEmit r).isSome

/-- A collaborator `_find` endpoint that never returns more documents
than the requested page size. -/
def MangoHonest (server : MangoBody → MangoResp) : Prop :=
  ∀ b : MangoBody, 0 < b.limit → ((server b).docs.length : ℤ) ≤ b.limit

/-- A collaborator `_find` endpoint none of whose document entries is
falsy. -/
def MangoNoFalsy (server : MangoBody → MangoResp) : Prop :=
  ∀ b : MangoBody, 0 < b.limit → ∀ d ∈ (server b).docs, d.isSome

/-- Last element of a list, if any. -/
def lastOpt {α : Type} : List α → Option α
  | [] => none
  | [a] => some a
  | _ :: b :: l => lastOpt (b :: l)

/- Concrete fixtures used by counterexamples and witnesses. -/

def docA : Doc := [("_id", .str "a-doc"), ("name", .str "A")]

def doc1 : Doc := [("_id", .str "id1"), ("name", .str "X")]

def doc2 : Doc := [("_id", .str "id2"), ("name", .str "Y")]

/-- A three-document database (ids in ascending order). -/
def dbOne : List (String × Doc) := [("a-doc", docA), ("id1", doc1), ("id2", doc2)]

def optsDefault : Options := ⟨.undef⟩

/-- A `_find` endpoint returning no documents. -/
def mangoNull : MangoBody → MangoResp := fun _ => ⟨[], none, none⟩

/-- Model of `readDoc` over `dbOne`. -/
def rdbOne : String → Option Doc :=
  fun s => ((dbOne.filter fun p => p.1 = s).head?).map (·.2)

def docM : Doc := [("_id", .str "m1")]

/-- A `_find` endpoint with a single short page. -/
def mangoOneServer : MangoBody → MangoResp :=
  fun _ => ⟨[some docM], some "bm", none⟩

/-- A query object carrying both a truthy `selector` and the two view
fields. -/
def ambigQuery : QueryObj :=
  { selector := some [("name", .str "X")]
    design := some "d"
    view := some "v"
    keys := none
    limit := .undef
    skip := none
    startkey := none
    startkey_docid := none
    endkey := none
    endkey_docid := none
    key := none }

def docDesign : Doc := [("_id", .str "_design/x")]

/-- A view endpoint whose first page (no cursor yet) is a single
design-document row and whose later pages hold one real document. -/
def designRowServer : ViewBody → ViewResponse := fun b =>
  match b.startkey with
  | none => ⟨[⟨some "_design/x", "_design/x", some docDesign⟩]⟩
  | some _ => ⟨[⟨some "a", "a", some docA⟩]⟩

/-- A view query with no keys and `limit = 1`. -/
def viewQueryL1 : ViewQuery := ⟨none, .num 1, none, none, none, none, none, none⟩

/-- A view query with no keys and no limit. -/
def plainViewQuery : ViewQuery := ⟨none, .undef, none, none, none, none, none, none⟩

def optsR1 : Options := ⟨.num 1⟩

def docM1 : Doc := [("_id", .str "m1")]

def docM2 : Doc := [("_id", .str "m2")]

def docM3 : Doc := [("_id", .str "m3")]

/-- A Mango query with `limit = 3`. -/
def mangoQueryL3 : MangoQuery := ⟨[("s", .bool true)], .num 3, none⟩

/-- A `_find` endpoint: the bookmark-less first page returns two
documents and a warning; subsequent pages return one document. -/
def mangoTwoPageServer : MangoBody → MangoResp := fun b =>
  match b.bookmark with
  | none => ⟨[some docM1, some docM2], some "bk1", some "w1"⟩
  | some _ => ⟨[some docM3], some "bk2", none⟩

/-- A view endpoint that fills every page exactly with copies of one
emittable row. -/
def replicateRowServer : ViewBody → ViewResponse :=
  fun b => ⟨List.replicate b.limit.toNat (Row.mk (some "a") "a" (some docA))⟩

/-- A `_find` endpoint that fills every page exactly. -/
def replicateMangoServer : MangoBody → MangoResp :=
  fun b => ⟨List.replicate b.limit.toNat (some docA), some "bk", none⟩

/-- An insert collaborator always answering with a fixed id/revision. -/
def insertStub : Doc → Option DVal → Option DVal → InsertResp :=
  fun _ _ _ => ⟨"a1", "2-b"⟩

def docInput : Doc := [("_id", .str "a1"), ("name", .str "X")]
theorem ELimit.subN_add (l : ELimit) (a b : Nat) :
    (l.subN a).subN b = l.subN (a + b) := by
  cases l with
  | inf => rfl
  | fin n => simp only [ELimit.subN]; congr 1; push_cast; ring

theorem processRows_fst (km : Bool) (rows : List Row) (body : ViewBody)
    (limit : ELimit) :
    (processRows km rows body limit).1 = rows.filterMap rowEmit := by
  induction rows generalizing body limit with
  | nil => rfl
  | cons r rest ih =>
    simp only [processRows, List.filterMap_cons]
    cases h : rowEmit r <;> simp [h, ih]

theorem processRows_limit (km : Bool) (rows : List Row) (body : ViewBody)
    (limit : ELimit) :
    (processRows km rows body limit).2.2
      = limit.subN (rows.filterMap rowEmit).length := by
  induction rows generalizing body limit with
  | nil => cases limit <;> simp [processRows, ELimit.subN]
  | cons r rest ih =>
    simp only [processRows, List.filterMap_cons]
    cases h : rowEmit r with
    | none => simp [h, ih]
    | some d =>
      simp only [h, Option.isSome_some, if_pos, List.length_cons]
      rw [ih, ELimit.subN_add]
      congr 1
      omega

theorem processRows_body_limit (km : Bool) (rows : List Row)
    (body : ViewBody) (limit : ELimit) :
    (processRows km rows body limit).2.1.limit = body.limit := by
  induction rows generalizing body limit with
  | nil => rfl
  | cons r rest ih => simp only [processRows]; rw [ih]; split <;> rfl

theorem mangoProcess_fst (docs : List (Option Doc)) (limit : ELimit) :
    (mangoProcess docs limit).1 = docs.filterMap id := by
  induction docs generalizing limit with
  | nil => rfl
  | cons d rest ih =>
    cases d <;> simp [mangoProcess, List.filterMap_cons, ih]

theorem mangoProcess_snd (docs : List (Option Doc)) (limit : ELimit) :
    (mangoProcess docs limit).2 = limit.subN (docs.filterMap id).length := by
  induction docs generalizing limit with
  | nil => cases limit <;> simp [mangoProcess, ELimit.subN]
  | cons d rest ih =>
    cases d with
    | none => simp [mangoProcess, List.filterMap_cons, ih]
    | some x =>
      simp only [mangoProcess, List.filterMap_cons, id_eq, List.length_cons]
      rw [ih, ELimit.subN_add]
      congr 1
      omega

theorem filterMap_length_of_isSome {α β : Type} (f : α → Option β)
    (l : List α) (h : ∀ a ∈ l, (f a).isSome) :
    (l.filterMap f).length = l.length := by
  induction l with
  | nil => rfl
  | cons a rest ih =>
    have ha := h a (by simp)
    cases hf : f a with
    | none => rw [hf] at ha; simp at ha
    | some b =>
      simp only [List.filterMap_cons, hf, List.length_cons]
      rw [ih (fun x hx => h x (by simp [hx]))]

theorem objGet_objSet_same (d : Doc) (k : String) (v : DVal) :
    objGet (objSet d k v) k = some v := by
  induction d with
  | nil => simp [objSet, objGet]
  | cons p rest ih =>
    obtain ⟨p1, p2⟩ := p
    by_cases h : p1 = k
    · simp [objSet, h, objGet]
    · simp [objSet, h, objGet, ih]

theorem objGet_objSet_ne (d : Doc) (k k1 : String) (v : DVal)
    (h : k1 ≠ k) : objGet (objSet d k v) k1 = objGet d k1 := by
  have hkk : ¬(k = k1) := fun he => h he.symm
  induction d with
  | nil => simp [objSet, objGet, hkk]
  | cons p rest ih =>
    obtain ⟨p1, p2⟩ := p
    by_cases hp : p1 = k
    · subst hp
      simp [objSet, objGet, hkk]
    · simp [objSet, hp, objGet, ih]

/-- C9: for every input document, `writeDoc` resolves to a document
whose fields other than `_id` and `_rev` are identical to the input
document fields, with `_id` and `_rev` replaced by the id and revision
taken from the insert response of the collaborator (which is called with
the document and its current `_id`/`_rev`). -/
theorem c9_writeDoc_frame (insert : Doc → Option DVal → Option DVal → InsertResp)
    (doc : Doc) (k : String) (h1 : k ≠ "_id") (h2 : k ≠ "_rev") :
    objGet (writeDoc insert doc) k = objGet doc k
    ∧ objGet (writeDoc insert doc) "_id"
        = some (.str (insert doc (objGet doc "_id") (objGet doc "_rev")).id)
    ∧ objGet (writeDoc insert doc) "_rev"
        = some (.str (insert doc (objGet doc "_id") (objGet doc "_rev")).rev) := by
  unfold writeDoc
  refine ⟨?_, ?_, ?_⟩
  · rw [objGet_objSet_ne _ _ _ _ h2, objGet_objSet_ne _ _ _ _ h1]
  · rw [objGet_objSet_ne _ _ _ _ (by decide), objGet_objSet_same]
  · rw [objGet_objSet_same]

/-- C9 witness: a concrete document and insert collaborator. -/
theorem c9_writeDoc_frame_witness :
    objGet (writeDoc insertStub docInput) "name" = some (.str "X")
    ∧ objGet (writeDoc insertStub docInput) "_id" = some (.str "a1")
    ∧ objGet (writeDoc insertStub docInput) "_rev" = some (.str "2-b") := by
  have h := c9_writeDoc_frame insertStub docInput "name" (by decide) (by decide)
  refine ⟨?_, ?_, ?_⟩
  · rw [h.1]; decide
  · rw [h.2.1]; decide
  · rw [h.2.2]; decide

/-- C7: in the row loop of `filterView`, a row is skipped exactly when
its identifier begins with the design-document prefix or it carries no
document; every remaining row document is emitted in order and each
emission decrements the remaining limit by one. -/
theorem c7_row_filtering (keyMode : Bool) (rows : List Row)
    (body : ViewBody) (limit : ELimit) :
    (processRows keyMode rows body limit).1
      = rows.filterMap (fun r => if rowIsDesign r.id then none else r.doc)
    ∧ (processRows keyMode rows body limit).2.2
      = limit.subN
          (rows.filterMap fun r => if rowIsDesign r.id then none else r.doc).length
    ∧ (∀ s : String, rowIsDesign (some s) = true ↔ ∃ t : String, s = "_design" ++ t)
    ∧ rowIsDesign none = false := by
  have he : (fun r => if rowIsDesign r.id then none else r.doc) = rowEmit := by
    funext r
    rfl
  rw [he]
  refine ⟨processRows_fst _ _ _ _, processRows_limit _ _ _ _, ?_, rfl⟩
  intro s
  simp only [rowIsDesign, List.isPrefixOf_iff_prefix]
  constructor
  · rintro ⟨td, htd⟩
    refine ⟨String.mk td, ?_⟩
    cases s with
    | mk sd => exact congrArg String.mk htd.symm
  · rintro ⟨t, rfl⟩
    exact ⟨t.data, rfl⟩

/-- C10: an explicit key list that is empty raises an `Error`, and a
non-array `keys` value raises a `TypeError`, in both cases before any
page request is issued (the output carries an empty request trace for
every collaborator); the array branch of `filterEntities` with an empty
id list does the same. -/
theorem c10_empty_keys (v : JsVal) (hv : ∀ xs, v ≠ .arr xs)
    (q q2 : ViewQuery) (hq : q.keys = some (.arr []))
    (hq2 : q2.keys = some v) (opts : Options)
    (vs : ViewBody → ViewResponse) (ms : MangoBody → MangoResp)
    (rdb : String → Option Doc) (fuel : Nat) :
    filterView q opts vs fuel
      = ⟨[], [], some (.error "Expected at least one key")⟩
    ∧ filterView q2 opts vs fuel
      = ⟨[], [], some (.typeError "View keys must be an array")⟩
    ∧ filterEntities vs ms rdb (.arr []) opts fuel
      = ⟨[], some (.error "Expected at least one key")⟩ := by
  refine ⟨?_, ?_, ?_⟩
  · unfold filterView
    rw [hq]
    rfl
  · unfold filterView
    rw [hq2]
    cases v with
    | arr xs => exact absurd rfl (hv xs)
    | undef => rfl
    | num q => rfl
    | inf => rfl
    | str s => rfl
  · unfold filterEntities filterView
    rfl

/-- C10 witness: concrete empty and non-array key values. -/
theorem c10_empty_keys_witness :
    filterView (arrViewQuery []) optsDefault (allDocsServer dbOne) 4
      = ⟨[], [], some (.error "Expected at least one key")⟩
    ∧ filterView ⟨some (.str "nope"), .undef, none, none, none, none, none, none⟩
        optsDefault (allDocsServer dbOne) 4
      = ⟨[], [], some (.typeError "View keys must be an array")⟩
    ∧ filterEntities (allDocsServer dbOne) mangoNull rdbOne (.arr [])
        optsDefault 4
      = ⟨[], some (.error "Expected at least one key")⟩ :=
  c10_empty_keys (.str "nope") (fun _ h => JsVal.noConfusion h) (arrViewQuery [])
    ⟨some (.str "nope"), .undef, none, none, none, none, none, none⟩
    rfl rfl optsDefault (allDocsServer dbOne) mangoNull rdbOne 4

theorem isPositiveInteger_true_iff (v : JsVal) :
    isPositiveInteger v = true ↔ IsPosIntVal v := by
  constructor
  · intro h
    cases v with
    | num q =>
      simp only [isPositiveInteger, Bool.and_eq_true, beq_iff_eq,
        decide_eq_true_eq] at h
      obtain ⟨hden, hnum⟩ := h
      refine ⟨q.num.toNat, by omega, ?_⟩
      have hq : (q.num : ℚ) = q := (Rat.den_eq_one_iff q).mp hden
      have h2 : ((q.num.toNat : ℕ) : ℚ) = ((q.num : ℤ) : ℚ) := by
        norm_cast
        omega
      rw [h2, hq]
    | undef => simp [isPositiveInteger] at h
    | inf => simp [isPositiveInteger] at h
    | str s => simp [isPositiveInteger] at h
    | arr xs => simp [isPositiveInteger] at h
  · rintro ⟨n, hn, rfl⟩
    simp only [isPositiveInteger, Bool.and_eq_true, beq_iff_eq,
      decide_eq_true_eq]
    refine ⟨Rat.den_natCast n, ?_⟩
    rw [Rat.num_natCast]
    omega

theorem notPosInt_false (v : JsVal) (h : ¬ IsPosIntVal v) :
    isPositiveInteger v = false := by
  cases hb : isPositiveInteger v with
  | false => rfl
  | true => exact absurd ((isPositiveInteger_true_iff v).mp hb) h

theorem parseReadSize_invalid (v : JsVal) (hu : v ≠ .undef)
    (h : ¬ IsPosIntVal v) :
    parseReadSize v = .error (.typeError "Invalid read size") := by
  have hf := notPosInt_false v h
  cases v with
  | undef => exact absurd rfl hu
  | num q => simp [parseReadSize, hf]
  | inf => rfl
  | str s => rfl
  | arr xs => rfl

theorem parseQueryLimit_invalid (w : JsVal) (hu : w ≠ .undef)
    (hi : w ≠ .inf) (h : ¬ IsPosIntVal w) :
    parseQueryLimit w = .error (.typeError "Invalid query limit") := by
  have hf := notPosInt_false w h
  cases w with
  | undef => exact absurd rfl hu
  | inf => exact absurd rfl hi
  | num q => simp [parseQueryLimit, hf]
  | str s => rfl
  | arr xs => rfl

theorem parseReadSize_ok_cases (v : JsVal) :
    (∃ r, parseReadSize v = .ok r)
    ∨ parseReadSize v = .error (.typeError "Invalid read size") := by
  cases v with
  | undef => exact Or.inl ⟨50, by decide⟩
  | num q =>
    cases hb : isPositiveInteger (.num q) with
    | false => exact Or.inr (by simp [parseReadSize, hb])
    | true => exact Or.inl ⟨q.num.toNat, by simp [parseReadSize, hb]⟩
  | inf => exact Or.inr rfl
  | str s => exact Or.inr rfl
  | arr xs => exact Or.inr rfl

theorem parseReadSize_pos (v : JsVal) (R : Nat)
    (h : parseReadSize v = .ok R) : 0 < R := by
  cases v with
  | undef =>
    have h50 : parseReadSize .undef = .ok 50 := by decide
    rw [h50] at h
    cases h
    omega
  | num q =>
    cases hb : isPositiveInteger (.num q) with
    | false => rw [parseReadSize, hb] at h; simp at h
    | true =>
      rw [parseReadSize, hb] at h
      simp at h
      have hnum : 0 < q.num := by
        simp only [isPositiveInteger, Bool.and_eq_true, beq_iff_eq,
          decide_eq_true_eq] at hb
        exact hb.2
      omega
  | inf => simp [parseReadSize, isPositiveInteger] at h
  | str s => simp [parseReadSize, isPositiveInteger] at h
  | arr xs => simp [parseReadSize, isPositiveInteger] at h

theorem parseQueryLimit_fin_pos (v : JsVal) (L : ℤ)
    (h : parseQueryLimit v = .ok (.fin L)) : 0 < L := by
  cases v with
  | undef =>
    have hu : parseQueryLimit .undef = .ok .inf := by decide
    rw [hu] at h
    simp at h
  | inf =>
    have hi : parseQueryLimit .inf = .ok .inf := by decide
    rw [hi] at h
    simp at h
  | num q =>
    cases hb : isPositiveInteger (.num q) with
    | false => rw [parseQueryLimit, hb] at h; simp at h
    | true =>
      rw [parseQueryLimit, hb] at h
      simp at h
      have hnum : 0 < q.num := by
        simp only [isPositiveInteger, Bool.and_eq_true, beq_iff_eq,
          decide_eq_true_eq] at hb
        exact hb.2
      omega
  | str s => simp [parseQueryLimit, isPositiveInteger] at h
  | arr xs => simp [parseQueryLimit, isPositiveInteger] at h

/-- C8: a `readSize` value that is not a positive integer makes
`filterView` and `filterMango` fail with a `TypeError` before any page
request (the request trace is empty and nothing is emitted, for every
collaborator), and likewise a present `limit` value that is neither a
positive integer nor `Infinity` (including zero and negatives); absent
values default to `readSize = 50` and an unbounded limit. -/
theorem c8_param_validation (v w : JsVal)
    (hv : ¬ IsPosIntVal v) (hvu : v ≠ .undef)
    (hw : ¬ IsPosIntVal w) (hwi : w ≠ .inf) (hwu : w ≠ .undef) :
    (∀ (q : ViewQuery) (vs : ViewBody → ViewResponse) (fuel : Nat),
        q.keys = none →
        filterView q ⟨v⟩ vs fuel
          = ⟨[], [], some (.typeError "Invalid read size")⟩)
    ∧ (∀ (mq : MangoQuery) (ms : MangoBody → MangoResp) (fuel : Nat),
        filterMango mq ⟨v⟩ ms fuel
          = ⟨[], [], [], some (.typeError "Invalid read size")⟩)
    ∧ (∀ (q : ViewQuery) (opts : Options) (vs : ViewBody → ViewResponse)
          (fuel : Nat), q.keys = none → q.limit = w →
        (filterView q opts vs fuel).reqs = []
        ∧ (filterView q opts vs fuel).emitted = []
        ∧ ∃ m, (filterView q opts vs fuel).err = some (.typeError m))
    ∧ (∀ (mq : MangoQuery) (opts : Options) (ms : MangoBody → MangoResp)
          (fuel : Nat), mq.limit = w →
        (filterMango mq opts ms fuel).reqs = []
        ∧ (filterMango mq opts ms fuel).emitted = []
        ∧ ∃ m, (filterMango mq opts ms fuel).err = some (.typeError m))
    ∧ parseReadSize .undef = .ok 50
    ∧ parseQueryLimit .undef = .ok .inf := by
  have hrs := parseReadSize_invalid v hvu hv
  have hql := parseQueryLimit_invalid w hwu hwi hw
  refine ⟨?_, ?_, ?_, ?_, by decide, by decide⟩
  · intro q vs fuel hk
    unfold filterView
    rw [hk, hrs]
  · intro mq ms fuel
    unfold filterMango
    rw [hrs]
  · intro q opts vs fuel hk hl
    unfold filterView
    rw [hk]
    rcases parseReadSize_ok_cases opts.readSize with ⟨r, hr⟩ | hr
    · rw [hr, hl, hql]
      exact ⟨rfl, rfl, "Invalid query limit", rfl⟩
    · rw [hr]
      exact ⟨rfl, rfl, "Invalid read size", rfl⟩
  · intro mq opts ms fuel hl
    unfold filterMango
    rcases parseReadSize_ok_cases opts.readSize with ⟨r, hr⟩ | hr
    · rw [hr, hl, hql]
      exact ⟨rfl, rfl, "Invalid query limit", rfl⟩
    · rw [hr]
      exact ⟨rfl, rfl, "Invalid read size", rfl⟩

/-- C8 witness: `readSize = 0` and `limit = -1` at concrete queries. -/
theorem c8_param_validation_witness :
    filterView plainViewQuery ⟨.num 0⟩ (allDocsServer dbOne) 4
      = ⟨[], [], some (.typeError "Invalid read size")⟩
    ∧ filterMango mangoQueryL3 ⟨.num 0⟩ mangoNull 4
      = ⟨[], [], [], some (.typeError "Invalid read size")⟩
    ∧ (filterView ⟨none, .num (-1), none, none, none, none, none, none⟩
        optsDefault (allDocsServer dbOne) 4).reqs = []
    ∧ (∃ m, (filterView ⟨none, .num (-1), none, none, none, none, none, none⟩
        optsDefault (allDocsServer dbOne) 4).err = some (.typeError m))
    ∧ (filterMango ⟨[("s", .bool true)], .num (-1), none⟩ optsDefault
        mangoNull 4).reqs = []
    ∧ (∃ m, (filterMango ⟨[("s", .bool true)], .num (-1), none⟩ optsDefault
        mangoNull 4).err = some (.typeError m)) := by
  have h0 : ¬ IsPosIntVal (.num 0) := by
    rintro ⟨n, hn, he⟩
    injection he with h1
    rw [eq_comm, Nat.cast_eq_zero] at h1
    omega
  have hm1 : ¬ IsPosIntVal (.num (-1)) := by
    rintro ⟨n, hn, he⟩
    injection he with h1
    have h2 : (0 : ℚ) ≤ (n : ℚ) := Nat.cast_nonneg n
    rw [← h1] at h2
    norm_num at h2
  have h := c8_param_validation (.num 0) (.num (-1)) h0 (by decide) hm1
    (by decide) (by decide)
  refine ⟨h.1 plainViewQuery (allDocsServer dbOne) 4 rfl,
    h.2.1 mangoQueryL3 mangoNull 4, ?_, ?_, ?_, ?_⟩
  · exact (h.2.2.1 _ optsDefault (allDocsServer dbOne) 4 rfl rfl).1
  · exact (h.2.2.1 _ optsDefault (allDocsServer dbOne) 4 rfl rfl).2.2
  · exact (h.2.2.2.1 _ optsDefault mangoNull 4 rfl).1
  · exact (h.2.2.2.1 _ optsDefault mangoNull 4 rfl).2.2

/-- C1: evaluation of the code at the failing input.  The id-list query
asks for `id1`, `id2` and a missing id over a database holding `a-doc`,
`id1`, `id2`.  `pushKeys` accepts the three ids, but `pullKeys` returns
`undefined` (its loop exhausts the map without hitting the early
return), so the request body carries no `keys` filter and the run emits
all three database documents — including `a-doc`, whose id is not in the
list — instead of exactly the two existing requested documents. -/
theorem c1_id_list_eval :
    pushKeys (.arr ["id1", "id2", "missing-id"])
      = .ok ["id1", "id2", "missing-id"]
    ∧ pullKeys ["id1", "id2", "missing-id"] 50 = (none, [])
    ∧ rdbOne "id1" = some doc1
    ∧ rdbOne "id2" = some doc2
    ∧ rdbOne "missing-id" = none
    ∧ filterEntities (allDocsServer dbOne) mangoNull rdbOne
        (.arr ["id1", "id2", "missing-id"]) optsDefault 4
      = ⟨[docA, doc1, doc2], none⟩
    ∧ docA ≠ doc1 ∧ docA ≠ doc2
    ∧ (filterEntities (allDocsServer dbOne) mangoNull rdbOne
        (.arr ["id1", "id2", "missing-id"]) optsDefault 4).emitted.length
      = 3 := by
  decide

/-- C2 counterexample: for the array query `["id1"]`, `filterEntities`
selects the id-list strategy, but `findEntity` spreads the array into a
plain object, so the strategy it actually invokes is the all-documents
view strategy; operationally it returns the first document of the
database (`a-doc`) rather than anything related to `id1`. -/
theorem c2_counterexample :
    classify (.arr ["id1"]) = Strategy.keyList
    ∧ classify (findSpread (.arr ["id1"])) = Strategy.view
    ∧ Strategy.view ≠ Strategy.keyList
    ∧ findEntity (allDocsServer dbOne) mangoNull rdbOne (.arr ["id1"])
        optsDefault 4 = .ok (some docA)
    ∧ docA ≠ doc1 ∧ rdbOne "id1" = some doc1 := by
  decide

/-- C2 (amended): for every non-string, non-array query, `findEntity`
invokes the same pagination strategy that `filterEntities` selects for
that query, with an injected `limit` of exactly 1, then drains the
sequence: zero yielded items resolve to the absence value `null`, one
item resolves to it, and a second yielded item raises an `Error`
distinct from the absence value.  (Array queries are demoted by the
spread to the plain all-documents view strategy — see the
counterexample.) -/
theorem c2_find_one (o : QueryObj) (vs : ViewBody → ViewResponse)
    (ms : MangoBody → MangoResp) (rdb : String → Option Doc)
    (opts : Options) (fuel : Nat) :
    classify (findSpread (.obj o)) = classify (.obj o)
    ∧ queryLimitOf (findSpread (.obj o)) = .num 1
    ∧ findEntity vs ms rdb (.obj o) opts fuel
        = drainDocs
            (filterEntities vs ms rdb (findSpread (.obj o)) opts fuel).emitted
            (filterEntities vs ms rdb (findSpread (.obj o)) opts fuel).err
    ∧ drainDocs [] none = .ok none
    ∧ (∀ d, drainDocs [d] none = .ok (some d))
    ∧ (∀ d1 d2 ds e, drainDocs (d1 :: d2 :: ds) e
        = .error (.error "Expected one iteration at most"))
    ∧ (Except.error (CouchErr.error "Expected one iteration at most")
        ≠ (.ok none : Except CouchErr (Option Doc))) := by
  refine ⟨?_, rfl, rfl, rfl, fun d => rfl, fun d1 d2 ds e => rfl, by decide⟩
  cases ho : o.selector <;> simp [findSpread, classify, ho]

/-- C5 counterexample: a query object carrying both a truthy `selector`
and the `design`/`view` fields is dispatched silently to the Mango
strategy — no classification error is raised, and the Mango
documents of the Mango collaborator are emitted. -/
theorem c5_counterexample :
    ambigQuery.selector.isSome = true
    ∧ ambigQuery.design = some "d"
    ∧ ambigQuery.view = some "v"
    ∧ classify (.obj ambigQuery) = Strategy.mango
    ∧ filterEntities (allDocsServer dbOne) mangoOneServer rdbOne
        (.obj ambigQuery) optsDefault 4 = ⟨[docM], none⟩ := by
  decide

/-- C5 (amended): a query object with a truthy `selector` is always
classified as a Mango query, even when view fields are also present:
`filterEntities` silently gives the `selector` rule precedence and
dispatches to `filterMango`; no classification error exists. -/
theorem c5_selector_precedence (o : QueryObj) (h : o.selector.isSome)
    (vs : ViewBody → ViewResponse) (ms : MangoBody → MangoResp)
    (rdb : String → Option Doc) (opts : Options) (fuel : Nat) :
    classify (.obj o) = Strategy.mango
    ∧ filterEntities vs ms rdb (.obj o) opts fuel
        = ⟨(filterMango (toMangoQuery o) opts ms fuel).emitted,
           (filterMango (toMangoQuery o) opts ms fuel).err⟩ := by
  constructor
  · simp [classify, h]
  · simp [filterEntities, h]

/-- C5 witness: the amended rule applied to the ambiguous query. -/
theorem c5_selector_precedence_witness :
    classify (.obj ambigQuery) = Strategy.mango
    ∧ filterEntities (allDocsServer dbOne) mangoOneServer rdbOne
        (.obj ambigQuery) optsDefault 4
      = ⟨(filterMango (toMangoQuery ambigQuery) optsDefault mangoOneServer
            4).emitted,
         (filterMango (toMangoQuery ambigQuery) optsDefault mangoOneServer
            4).err⟩ :=
  c5_selector_precedence ambigQuery (by decide) (allDocsServer dbOne)
    mangoOneServer rdbOne optsDefault 4

theorem viewLoop_reqs_limit (server : ViewBody → ViewResponse) (R : Nat)
    (L0 : ELimit) :
    ∀ (fuel : Nat) (body : ViewBody) (limit : ELimit)
      (keys : Option (List String)) (n : Nat),
      body.limit = limit.minR R →
      limit = L0.subN n →
      ∀ r ∈ (viewLoop server R fuel body limit keys n).reqs,
        r.body.limit = (L0.subN r.emittedBefore).minR R := by
  intro fuel
  induction fuel with
  | zero =>
    intro body limit keys n hb hl r hr
    simp [viewLoop] at hr
  | succ f ih =>
    intro body limit keys n hb hl r hr
    simp only [viewLoop] at hr
    by_cases hp : limit.pos = false
    · rw [if_pos hp] at hr
      simp at hr
    · rw [if_neg hp] at hr
      by_cases hs : ((server body).rows.length : ℤ) < body.limit
      · rw [if_pos hs] at hr
        simp at hr
        subst hr
        rw [hb, hl]
      · rw [if_neg hs] at hr
        have hpr2 : (processRows keys.isSome (server body).rows body limit).2.2
            = L0.subN (n + ((server body).rows.filterMap rowEmit).length) := by
          rw [processRows_limit, hl, ELimit.subN_add]
        have hlen : (processRows keys.isSome (server body).rows body limit).1.length
            = ((server body).rows.filterMap rowEmit).length := by
          rw [processRows_fst]
        cases keys with
        | some m =>
          dsimp only at hr hpr2 hlen
          rcases List.mem_cons.mp hr with h1 | h2
          · subst h1
            rw [hb, hl]
          · exact ih _ _ _ _ rfl (by rw [hpr2, hlen]) r h2
        | none =>
          dsimp only at hr hpr2 hlen
          rcases List.mem_cons.mp hr with h1 | h2
          · subst h1
            rw [hb, hl]
          · exact ih _ _ _ _ rfl (by rw [hpr2, hlen]) r h2

theorem ceilDiv_pos (R N : Nat) (hR : 0 < R) (hN : 1 ≤ N) :
    1 ≤ (N + R - 1) / R := by
  rw [Nat.le_div_iff_mul_le hR]
  omega

theorem ceilDiv_helper (R N : Nat) (hR : 0 < R) (hN : 1 ≤ N) :
    1 + (N - min R N + R - 1) / R ≤ (N + R - 1) / R := by
  rcases le_or_lt N R with h | h
  · have h1 : N - min R N = 0 := by omega
    rw [h1]
    have h2 : (0 + R - 1) / R = 0 := Nat.div_eq_of_lt (by omega)
    rw [h2]
    have h3 := ceilDiv_pos R N hR hN
    omega
  · have h1 : N - min R N + R - 1 = N - 1 := by omega
    have h2 : N + R - 1 = N - 1 + R := by omega
    rw [h1, h2, Nat.add_div_right _ hR]
    omega

theorem elimit_fin_pos (m : ℤ) (hp : ¬ (ELimit.fin m).pos = false) :
    0 < m := by
  simp [ELimit.pos] at hp
  exact hp

theorem viewLoop_emitted_bound (server : ViewBody → ViewResponse) (R : Nat)
    (hH : ViewHonest server) (hR : 0 < R) :
    ∀ (fuel : Nat) (body : ViewBody) (keys : Option (List String)) (n : Nat)
      (m : ℤ), body.limit = (ELimit.fin m).minR R →
      (viewLoop server R fuel body (.fin m) keys n).emitted.length
        ≤ m.toNat := by
  intro fuel
  induction fuel with
  | zero =>
    intro body keys n m hb
    simp [viewLoop]
  | succ f ih =>
    intro body keys n m hb
    simp only [viewLoop]
    by_cases hp : (ELimit.fin m).pos = false
    · rw [if_pos hp]
      simp
    · rw [if_neg hp]
      have hm : 0 < m := elimit_fin_pos m hp
      have hbl : 0 < body.limit := by
        rw [hb]
        simp only [ELimit.minR]
        omega
      have hrows := hH body hbl
      have hle := List.length_filterMap_le rowEmit (server body).rows
      have hlen : (processRows keys.isSome (server body).rows body
          (ELimit.fin m)).1.length
          = ((server body).rows.filterMap rowEmit).length := by
        rw [processRows_fst]
      have hpr2 : (processRows keys.isSome (server body).rows body
          (ELimit.fin m)).2.2
          = ELimit.fin (m - ((server body).rows.filterMap rowEmit).length) := by
        rw [processRows_limit]
        rfl
      have hemb : ((server body).rows.filterMap rowEmit).length ≤ m.toNat := by
        rw [hb] at hrows
        simp only [ELimit.minR] at hrows
        omega
      by_cases hs : ((server body).rows.length : ℤ) < body.limit
      · rw [if_pos hs]
        simpa [hlen] using hemb
      · rw [if_neg hs]
        cases keys with
        | some ks =>
          dsimp only at hlen hpr2 ⊢
          rw [hpr2, List.length_append, hlen]
          refine le_trans (Nat.add_le_add_left (ih _ _ _
            (m - ((server body).rows.filterMap rowEmit).length) rfl) _) ?_
          omega
        | none =>
          dsimp only at hlen hpr2 ⊢
          rw [hpr2, List.length_append, hlen]
          refine le_trans (Nat.add_le_add_left (ih _ _ _
            (m - ((server body).rows.filterMap rowEmit).length) rfl) _) ?_
          omega

theorem viewLoop_reqs_bound (server : ViewBody → ViewResponse) (R : Nat)
    (hH : ViewHonest server) (hNS : ViewNoSkip server) (hR : 0 < R) :
    ∀ (fuel : Nat) (body : ViewBody) (keys : Option (List String)) (n : Nat)
      (m : ℤ), body.limit = (ELimit.fin m).minR R →
      (viewLoop server R fuel body (.fin m) keys n).reqs.length
        ≤ (m.toNat + R - 1) / R := by
  intro fuel
  induction fuel with
  | zero =>
    intro body keys n m hb
    simp [viewLoop]
  | succ f ih =>
    intro body keys n m hb
    simp only [viewLoop]
    by_cases hp : (ELimit.fin m).pos = false
    · rw [if_pos hp]
      simp
    · rw [if_neg hp]
      have hm : 0 < m := elimit_fin_pos m hp
      have hbl : 0 < body.limit := by
        rw [hb]
        simp only [ELimit.minR]
        omega
      have hrows := hH body hbl
      have hfull : ((server body).rows.filterMap rowEmit).length
          = (server body).rows.length :=
        filterMap_length_of_isSome rowEmit (server body).rows (hNS body hbl)
      have hone : 1 ≤ (m.toNat + R - 1) / R :=
        ceilDiv_pos R m.toNat hR (by omega)
      have hpr2 : (processRows keys.isSome (server body).rows body
          (ELimit.fin m)).2.2
          = ELimit.fin (m - ((server body).rows.filterMap rowEmit).length) := by
        rw [processRows_limit]
        rfl
      by_cases hs : ((server body).rows.length : ℤ) < body.limit
      · rw [if_pos hs]
        simpa using hone
      · rw [if_neg hs]
        have heq : ((server body).rows.filterMap rowEmit).length
            = min R m.toNat := by
          rw [hb] at hrows hs
          simp only [ELimit.minR] at hrows hs
          omega
        have hsub : (m - (((server body).rows.filterMap rowEmit).length : ℤ)).toNat
            = m.toNat - min R m.toNat := by
          omega
        have hc := ceilDiv_helper R m.toNat hR (by omega)
        cases keys with
        | some ks =>
          dsimp only at hpr2 ⊢
          rw [hpr2]
          refine le_trans (Nat.succ_le_succ (ih _ _ _
            (m - ((server body).rows.filterMap rowEmit).length) rfl)) ?_
          rw [hsub]
          omega
        | none =>
          dsimp only at hpr2 ⊢
          rw [hpr2]
          refine le_trans (Nat.succ_le_succ (ih _ _ _
            (m - ((server body).rows.filterMap rowEmit).length) rfl)) ?_
          rw [hsub]
          omega

theorem mangoLoop_reqs_limit (server : MangoBody → MangoResp) (R : Nat)
    (L0 : ELimit) :
    ∀ (fuel : Nat) (body : MangoBody) (limit : ELimit) (n : Nat),
      body.limit = limit.minR R →
      limit = L0.subN n →
      ∀ r ∈ (mangoLoop server R fuel body limit n).reqs,
        r.body.limit = (L0.subN r.emittedBefore).minR R := by
  intro fuel
  induction fuel with
  | zero =>
    intro body limit n hb hl r hr
    simp [mangoLoop] at hr
  | succ f ih =>
    intro body limit n hb hl r hr
    simp only [mangoLoop] at hr
    by_cases hp : limit.pos = false
    · rw [if_pos hp] at hr
      simp at hr
    · rw [if_neg hp] at hr
      have hmp2 : (mangoProcess (server body).docs limit).2
          = L0.subN (n + ((server body).docs.filterMap id).length) := by
        rw [mangoProcess_snd, hl, ELimit.subN_add]
      have hlen : (mangoProcess (server body).docs limit).1.length
          = ((server body).docs.filterMap id).length := by
        rw [mangoProcess_fst]
      by_cases hs : ((server body).docs.length : ℤ) < body.limit
      · rw [if_pos hs] at hr
        simp at hr
        subst hr
        rw [hb, hl]
      · rw [if_neg hs] at hr
        rcases List.mem_cons.mp hr with h1 | h2
        · subst h1
          rw [hb, hl]
        · exact ih _ _ _ rfl (by rw [hmp2, hlen]) r h2

theorem mangoLoop_emitted_bound (server : MangoBody → MangoResp) (R : Nat)
    (hH : MangoHonest server) (hR : 0 < R) :
    ∀ (fuel : Nat) (body : MangoBody) (n : Nat) (m : ℤ),
      body.limit = (ELimit.fin m).minR R →
      (mangoLoop server R fuel body (.fin m) n).emitted.length ≤ m.toNat := by
  intro fuel
  induction fuel with
  | zero =>
    intro body n m hb
    simp [mangoLoop]
  | succ f ih =>
    intro body n m hb
    simp only [mangoLoop]
    by_cases hp : (ELimit.fin m).pos = false
    · rw [if_pos hp]
      simp
    · rw [if_neg hp]
      have hm : 0 < m := elimit_fin_pos m hp
      have hbl : 0 < body.limit := by
        rw [hb]
        simp only [ELimit.minR]
        omega
      have hdocs := hH body hbl
      have hle := List.length_filterMap_le (id : Option Doc → Option Doc) (server body).docs
      have hlen : (mangoProcess (server body).docs (ELimit.fin m)).1.length
          = ((server body).docs.filterMap id).length := by
        rw [mangoProcess_fst]
      have hmp2 : (mangoProcess (server body).docs (ELimit.fin m)).2
          = ELimit.fin (m - ((server body).docs.filterMap id).length) := by
        rw [mangoProcess_snd]
        rfl
      have hemb : ((server body).docs.filterMap id).length ≤ m.toNat := by
        rw [hb] at hdocs
        simp only [ELimit.minR] at hdocs
        omega
      by_cases hs : ((server body).docs.length : ℤ) < body.limit
      · rw [if_pos hs]
        simpa [hlen] using hemb
      · rw [if_neg hs]
        dsimp only
        rw [hmp2, List.length_append, hlen]
        refine le_trans (Nat.add_le_add_left (ih _ _
          (m - ((server body).docs.filterMap id).length) rfl) _) ?_
        omega

theorem mangoLoop_reqs_bound (server : MangoBody → MangoResp) (R : Nat)
    (hH : MangoHonest server) (hNF : MangoNoFalsy server) (hR : 0 < R) :
    ∀ (fuel : Nat) (body : MangoBody) (n : Nat) (m : ℤ),
      body.limit = (ELimit.fin m).minR R →
      (mangoLoop server R fuel body (.fin m) n).reqs.length
        ≤ (m.toNat + R - 1) / R := by
  intro fuel
  induction fuel with
  | zero =>
    intro body n m hb
    simp [mangoLoop]
  | succ f ih =>
    intro body n m hb
    simp only [mangoLoop]
    by_cases hp : (ELimit.fin m).pos = false
    · rw [if_pos hp]
      simp
    · rw [if_neg hp]
      have hm : 0 < m := elimit_fin_pos m hp
      have hbl : 0 < body.limit := by
        rw [hb]
        simp only [ELimit.minR]
        omega
      have hdocs := hH body hbl
      have hfull : ((server body).docs.filterMap id).length
          = (server body).docs.length := by
        refine filterMap_length_of_isSome id (server body).docs ?_
        intro d hd
        exact hNF body hbl d hd
      have hone : 1 ≤ (m.toNat + R - 1) / R :=
        ceilDiv_pos R m.toNat hR (by omega)
      have hmp2 : (mangoProcess (server body).docs (ELimit.fin m)).2
          = ELimit.fin (m - ((server body).docs.filterMap id).length) := by
        rw [mangoProcess_snd]
        rfl
      by_cases hs : ((server body).docs.length : ℤ) < body.limit
      · rw [if_pos hs]
        simpa using hone
      · rw [if_neg hs]
        have heq : ((server body).docs.filterMap id).length
            = min R m.toNat := by
          rw [hb] at hdocs hs
          simp only [ELimit.minR] at hdocs hs
          omega
        have hsub : (m - (((server body).docs.filterMap id).length : ℤ)).toNat
            = m.toNat - min R m.toNat := by
          omega
        have hc := ceilDiv_helper R m.toNat hR (by omega)
        dsimp only
        rw [hmp2]
        refine le_trans (Nat.succ_le_succ (ih _ _
          (m - ((server body).docs.filterMap id).length) rfl)) ?_
        rw [hsub]
        omega

theorem mangoLoop_head (server : MangoBody → MangoResp) (R : Nat)
    (fuel : Nat) (body : MangoBody) (limit : ELimit) (n : Nat)
    (r : MangoReqLog)
    (h : (mangoLoop server R fuel body limit n).reqs.head? = some r) :
    r.body = body ∧ r.emittedBefore = n := by
  cases fuel with
  | zero => simp [mangoLoop] at h
  | succ f =>
    simp only [mangoLoop] at h
    by_cases hp : limit.pos = false
    · rw [if_pos hp] at h
      simp at h
    · rw [if_neg hp] at h
      by_cases hs : ((server body).docs.length : ℤ) < body.limit
      · rw [if_pos hs] at h
        simp at h
        exact ⟨congrArg MangoReqLog.body h.symm, congrArg MangoReqLog.emittedBefore h.symm⟩
      · rw [if_neg hs] at h
        simp at h
        exact ⟨congrArg MangoReqLog.body h.symm, congrArg MangoReqLog.emittedBefore h.symm⟩

theorem mangoLoop_chain (server : MangoBody → MangoResp) (R : Nat) :
    ∀ (fuel : Nat) (body : MangoBody) (limit : ELimit) (n : Nat),
      ∀ p ∈ ((mangoLoop server R fuel body limit n).reqs.zip
             (mangoLoop server R fuel body limit n).reqs.tail),
        p.2.body.bookmark = (server p.1.body).bookmark := by
  intro fuel
  induction fuel with
  | zero =>
    intro body limit n p hp
    simp [mangoLoop] at hp
  | succ f ih =>
    intro body limit n p hp
    simp only [mangoLoop] at hp
    by_cases hpos : limit.pos = false
    · rw [if_pos hpos] at hp
      simp at hp
    · rw [if_neg hpos] at hp
      by_cases hs : ((server body).docs.length : ℤ) < body.limit
      · rw [if_pos hs] at hp
        simp at hp
      · rw [if_neg hs] at hp
        dsimp only at hp
        cases hT : (mangoLoop server R f
            { body with
                bookmark := (server body).bookmark
                limit := (mangoProcess (server body).docs limit).2.minR R
                skip := some 0 }
            (mangoProcess (server body).docs limit).2
            (n + (mangoProcess (server body).docs limit).1.length)).reqs with
        | nil =>
          rw [hT] at hp
          simp at hp
        | cons b T =>
          rw [hT] at hp
          simp only [List.zip_cons_cons, List.tail_cons] at hp
          rcases List.mem_cons.mp hp with h1 | h2
          · have hb := mangoLoop_head server R f _ _ _ b (by rw [hT]; rfl)
            subst h1
            rw [hb.1]
          · refine ih { body with
                bookmark := (server body).bookmark
                limit := (mangoProcess (server body).docs limit).2.minR R
                skip := some 0 }
              (mangoProcess (server body).docs limit).2
              (n + (mangoProcess (server body).docs limit).1.length) p ?_
            rw [hT]
            simpa using h2

theorem mangoLoop_selector (server : MangoBody → MangoResp) (R : Nat) :
    ∀ (fuel : Nat) (body : MangoBody) (limit : ELimit) (n : Nat),
      ∀ r ∈ (mangoLoop server R fuel body limit n).reqs,
        r.body.selector = body.selector := by
  intro fuel
  induction fuel with
  | zero =>
    intro body limit n r hr
    simp [mangoLoop] at hr
  | succ f ih =>
    intro body limit n r hr
    simp only [mangoLoop] at hr
    by_cases hp : limit.pos = false
    · rw [if_pos hp] at hr
      simp at hr
    · rw [if_neg hp] at hr
      by_cases hs : ((server body).docs.length : ℤ) < body.limit
      · rw [if_pos hs] at hr
        simp at hr
        subst hr
        rfl
      · rw [if_neg hs] at hr
        rcases List.mem_cons.mp hr with h1 | h2
        · subst h1
          rfl
        · have := ih { body with
              bookmark := (server body).bookmark
              limit := (mangoProcess (server body).docs limit).2.minR R
              skip := some 0 }
            (mangoProcess (server body).docs limit).2
            (n + (mangoProcess (server body).docs limit).1.length) r h2
          rw [this]

theorem mangoLoop_nonshort (server : MangoBody → MangoResp) (R : Nat) :
    ∀ (fuel : Nat) (body : MangoBody) (limit : ELimit) (n : Nat),
      ∀ p ∈ ((mangoLoop server R fuel body limit n).reqs.zip
             (mangoLoop server R fuel body limit n).reqs.tail),
        ¬ (((server p.1.body).docs.length : ℤ) < p.1.body.limit) := by
  intro fuel
  induction fuel with
  | zero =>
    intro body limit n p hp
    simp [mangoLoop] at hp
  | succ f ih =>
    intro body limit n p hp
    simp only [mangoLoop] at hp
    by_cases hpos : limit.pos = false
    · rw [if_pos hpos] at hp
      simp at hp
    · rw [if_neg hpos] at hp
      by_cases hs : ((server body).docs.length : ℤ) < body.limit
      · rw [if_pos hs] at hp
        simp at hp
      · rw [if_neg hs] at hp
        dsimp only at hp
        cases hT : (mangoLoop server R f
            { body with
                bookmark := (server body).bookmark
                limit := (mangoProcess (server body).docs limit).2.minR R
                skip := some 0 }
            (mangoProcess (server body).docs limit).2
            (n + (mangoProcess (server body).docs limit).1.length)).reqs with
        | nil =>
          rw [hT] at hp
          simp at hp
        | cons b T =>
          rw [hT] at hp
          simp only [List.zip_cons_cons, List.tail_cons] at hp
          rcases List.mem_cons.mp hp with h1 | h2
          · subst h1
            exact hs
          · refine ih { body with
                bookmark := (server body).bookmark
                limit := (mangoProcess (server body).docs limit).2.minR R
                skip := some 0 }
              (mangoProcess (server body).docs limit).2
              (n + (mangoProcess (server body).docs limit).1.length) p ?_
            rw [hT]
            simpa using h2

theorem mangoLoop_nil_reqs (server : MangoBody → MangoResp) (R : Nat)
    (fuel : Nat) (body : MangoBody) (limit : ELimit) (n : Nat)
    (he : (mangoLoop server R fuel body limit n).err = none)
    (hq : (mangoLoop server R fuel body limit n).reqs = []) :
    limit.pos = false
    ∧ (mangoLoop server R fuel body limit n).emitted = [] := by
  cases fuel with
  | zero => simp [mangoLoop] at he
  | succ f =>
    simp only [mangoLoop] at he hq ⊢
    by_cases hp : limit.pos = false
    · rw [if_pos hp]
      exact ⟨hp, rfl⟩
    · rw [if_neg hp] at hq
      by_cases hs : ((server body).docs.length : ℤ) < body.limit
      · rw [if_pos hs] at hq
        simp at hq
      · rw [if_neg hs] at hq
        simp at hq

theorem lastOpt_cons_cons {α : Type} (a b : α) (l : List α) :
    lastOpt (a :: b :: l) = lastOpt (b :: l) := rfl

theorem mangoLoop_last (server : MangoBody → MangoResp) (R : Nat) :
    ∀ (fuel : Nat) (body : MangoBody) (limit : ELimit) (n : Nat)
      (r : MangoReqLog),
      (mangoLoop server R fuel body limit n).err = none →
      lastOpt (mangoLoop server R fuel body limit n).reqs = some r →
      (((server r.body).docs.length : ℤ) < r.body.limit)
      ∨ (limit.subN
          (mangoLoop server R fuel body limit n).emitted.length).pos
        = false := by
  intro fuel
  induction fuel with
  | zero =>
    intro body limit n r he
    simp [mangoLoop] at he
  | succ f ih =>
    intro body limit n r he hl
    simp only [mangoLoop] at he hl ⊢
    by_cases hp : limit.pos = false
    · rw [if_pos hp] at hl
      simp [lastOpt] at hl
    · rw [if_neg hp] at he hl ⊢
      by_cases hs : ((server body).docs.length : ℤ) < body.limit
      · rw [if_pos hs] at hl ⊢
        simp only [lastOpt] at hl
        cases hl
        exact Or.inl hs
      · rw [if_neg hs] at he hl ⊢
        dsimp only at he hl ⊢
        cases hT : (mangoLoop server R f
            { body with
                bookmark := (server body).bookmark
                limit := (mangoProcess (server body).docs limit).2.minR R
                skip := some 0 }
            (mangoProcess (server body).docs limit).2
            (n + (mangoProcess (server body).docs limit).1.length)).reqs with
        | nil =>
          rw [hT] at hl
          simp only [lastOpt] at hl
          cases hl
          have hnil := mangoLoop_nil_reqs server R f _ _ _ he hT
          right
          have h1 := hnil.1
          rw [mangoProcess_snd] at h1
          rw [hnil.2]
          simp only [List.append_nil, mangoProcess_fst]
          exact h1
        | cons b T =>
          rw [hT] at hl
          rw [lastOpt_cons_cons] at hl
          have key := ih { body with
              bookmark := (server body).bookmark
              limit := (mangoProcess (server body).docs limit).2.minR R
              skip := some 0 }
            (mangoProcess (server body).docs limit).2
            (n + (mangoProcess (server body).docs limit).1.length) r he
            (by rw [hT]; exact hl)
          rcases key with h1 | h2
          · exact Or.inl h1
          · right
            rw [mangoProcess_snd, ELimit.subN_add, mangoProcess_fst] at h2
            rw [List.length_append, mangoProcess_snd, mangoProcess_fst]
            exact h2

theorem mangoLoop_warn (server : MangoBody → MangoResp) (R : Nat) :
    ∀ (fuel : Nat) (body : MangoBody) (limit : ELimit) (n : Nat),
      ∀ r ∈ (mangoLoop server R fuel body limit n).reqs,
      ∀ w, (server r.body).warning = some w → strFalsy w = false →
        w ∈ (mangoLoop server R fuel body limit n).warnings := by
  intro fuel
  induction fuel with
  | zero =>
    intro body limit n r hr
    simp [mangoLoop] at hr
  | succ f ih =>
    intro body limit n r hr w hw hwe
    simp only [mangoLoop] at hr ⊢
    by_cases hp : limit.pos = false
    · rw [if_pos hp] at hr
      simp at hr
    · rw [if_neg hp] at hr ⊢
      by_cases hs : ((server body).docs.length : ℤ) < body.limit
      · rw [if_pos hs] at hr ⊢
        simp at hr
        subst hr
        rw [hw]
        simp [hwe]
      · rw [if_neg hs] at hr ⊢
        dsimp only at hr ⊢
        rcases List.mem_cons.mp hr with h1 | h2
        · subst h1
          apply List.mem_append_left
          rw [hw]
          simp [hwe]
        · apply List.mem_append_right
          exact ih { body with
              bookmark := (server body).bookmark
              limit := (mangoProcess (server body).docs limit).2.minR R
              skip := some 0 }
            (mangoProcess (server body).docs limit).2
            (n + (mangoProcess (server body).docs limit).1.length) r h2 w hw hwe

theorem mangoLoop_err (server : MangoBody → MangoResp) (R : Nat) :
    ∀ (fuel : Nat) (body : MangoBody) (limit : ELimit) (n : Nat),
      (mangoLoop server R fuel body limit n).err = none
      ∨ (mangoLoop server R fuel body limit n).err = some .fuel := by
  intro fuel
  induction fuel with
  | zero =>
    intro body limit n
    exact Or.inr rfl
  | succ f ih =>
    intro body limit n
    simp only [mangoLoop]
    by_cases hp : limit.pos = false
    · rw [if_pos hp]
      exact Or.inl rfl
    · rw [if_neg hp]
      by_cases hs : ((server body).docs.length : ℤ) < body.limit
      · rw [if_pos hs]
        exact Or.inl rfl
      · rw [if_neg hs]
        exact ih _ _ _

theorem ELimit.subN_zero (l : ELimit) : l.subN 0 = l := by
  cases l <;> simp [ELimit.subN]

theorem filterMango_eq (mq : MangoQuery) (opts : Options)
    (ms : MangoBody → MangoResp) (fuel : Nat) (R : Nat) (L : ELimit)
    (hR : parseReadSize opts.readSize = .ok R)
    (hL : parseQueryLimit mq.limit = .ok L) :
    filterMango mq opts ms fuel
      = mangoLoop ms R fuel ⟨none, mq.selector, L.minR R, mq.skip⟩ L 0 := by
  unfold filterMango
  rw [hR, hL]

theorem filterView_eq_nokeys (q : ViewQuery) (opts : Options)
    (vs : ViewBody → ViewResponse) (fuel : Nat) (R : Nat) (L : ELimit)
    (hk : q.keys = none)
    (hR : parseReadSize opts.readSize = .ok R)
    (hL : parseQueryLimit q.limit = .ok L) :
    filterView q opts vs fuel
      = viewLoop vs R fuel
          ⟨none, L.minR R, q.skip, q.startkey, q.startkey_docid, q.endkey,
           q.endkey_docid, q.key⟩ L none 0 := by
  unfold filterView
  rw [hk, hR, hL]

theorem filterView_eq_keys (q : ViewQuery) (opts : Options)
    (vs : ViewBody → ViewResponse) (fuel : Nat) (R : Nat) (L : ELimit)
    (kv : JsVal) (ks : List String)
    (hk : q.keys = some kv) (hpk : pushKeys kv = .ok ks)
    (hR : parseReadSize opts.readSize = .ok R)
    (hL : parseQueryLimit q.limit = .ok L) :
    filterView q opts vs fuel
      = viewLoop vs R fuel
          ⟨(pullKeys ks (L.minR R)).1, L.minR R, q.skip, none, none, none,
           none, none⟩ L (some (pullKeys ks (L.minR R)).2) 0 := by
  unfold filterView
  rw [hk]
  dsimp only
  rw [hpk, hR, hL]
  rfl

theorem filterView_keys_error (q : ViewQuery) (opts : Options)
    (vs : ViewBody → ViewResponse) (fuel : Nat) (kv : JsVal) (e : CouchErr)
    (hk : q.keys = some kv) (hpk : pushKeys kv = .error e) :
    filterView q opts vs fuel = ⟨[], [], some e⟩ := by
  unfold filterView
  rw [hk]
  dsimp only
  rw [hpk]
  rfl

/-- C4: in every paginated execution (view or Mango) with validated
parameters, every page request carries a `limit` field equal to
`min(readSize, remainingLimit)` where `remainingLimit` is the logical
limit minus the number of documents emitted before the request; the
requested page size never exceeds either bound. -/
theorem c4_page_size (q : ViewQuery) (mq : MangoQuery) (opts : Options)
    (vs : ViewBody → ViewResponse) (ms : MangoBody → MangoResp)
    (fuel R : Nat) (Lv Lm : ELimit)
    (hR : parseReadSize opts.readSize = .ok R)
    (hLv : parseQueryLimit q.limit = .ok Lv)
    (hLm : parseQueryLimit mq.limit = .ok Lm) :
    (∀ r ∈ (filterView q opts vs fuel).reqs,
        r.body.limit = (Lv.subN r.emittedBefore).minR R
        ∧ r.body.limit ≤ (R : ℤ)
        ∧ (∀ c : ℤ, Lv.subN r.emittedBefore = .fin c → r.body.limit ≤ c))
    ∧ (∀ r ∈ (filterMango mq opts ms fuel).reqs,
        r.body.limit = (Lm.subN r.emittedBefore).minR R
        ∧ r.body.limit ≤ (R : ℤ)
        ∧ (∀ c : ℤ, Lm.subN r.emittedBefore = .fin c → r.body.limit ≤ c)) := by
  have hle : ∀ (l : ELimit), l.minR R ≤ (R : ℤ) := by
    intro l
    cases l <;> simp [ELimit.minR]
  constructor
  · intro r hr
    have hmain : r.body.limit = (Lv.subN r.emittedBefore).minR R := by
      cases hk : q.keys with
      | none =>
        rw [filterView_eq_nokeys q opts vs fuel R Lv hk hR hLv] at hr
        exact viewLoop_reqs_limit vs R Lv fuel _ Lv none 0 rfl
          (ELimit.subN_zero Lv).symm r hr
      | some kv =>
        cases hpk : pushKeys kv with
        | error e =>
          rw [filterView_keys_error q opts vs fuel kv e hk hpk] at hr
          simp at hr
        | ok ks =>
          rw [filterView_eq_keys q opts vs fuel R Lv kv ks hk hpk hR hLv] at hr
          exact viewLoop_reqs_limit vs R Lv fuel _ Lv _ 0 rfl
            (ELimit.subN_zero Lv).symm r hr
    refine ⟨hmain, hmain ▸ hle _, ?_⟩
    intro c hc
    rw [hmain, hc]
    simp [ELimit.minR]
  · intro r hr
    rw [filterMango_eq mq opts ms fuel R Lm hR hLm] at hr
    have hmain : r.body.limit = (Lm.subN r.emittedBefore).minR R :=
      mangoLoop_reqs_limit ms R Lm fuel _ Lm 0 rfl
        (ELimit.subN_zero Lm).symm r hr
    refine ⟨hmain, hmain ▸ hle _, ?_⟩
    intro c hc
    rw [hmain, hc]
    simp [ELimit.minR]

/-- C4 witness: the concrete two-page Mango run requests page sizes
`min(2, 3 - 0) = 2` then `min(2, 3 - 2) = 1`. -/
theorem c4_page_size_witness :
    (filterMango mangoQueryL3 ⟨.num 2⟩ mangoTwoPageServer 9).reqs.length = 2
    ∧ (MangoReqLog.mk ⟨none, [("s", DVal.bool true)], 2, none⟩ 0).body.limit
        = ((ELimit.fin 3).subN 0).minR 2
    ∧ (MangoReqLog.mk ⟨some "bk1", [("s", DVal.bool true)], 1, some 0⟩
        2).body.limit = ((ELimit.fin 3).subN 2).minR 2 := by
  have h := c4_page_size plainViewQuery mangoQueryL3 ⟨.num 2⟩
    (allDocsServer dbOne) mangoTwoPageServer 9 2 .inf (.fin 3)
    (by decide) (by decide) (by decide)
  exact ⟨by decide, (h.2 _ (by decide)).1, (h.2 _ (by decide)).1⟩

/-- C3 (amended): with a validated finite limit `L` and page size `R`,
and a collaborator that never returns more rows than requested, at most
`L` documents are emitted; when additionally every returned row is
emittable (no design-document rows, no rows or entries without a
document), at most `ceil(L/R)` page requests are issued.  Without that
proviso the page-request bound fails — see the counterexample. -/
theorem c3_bounds (q : ViewQuery) (mq : MangoQuery) (opts : Options)
    (vs : ViewBody → ViewResponse) (ms : MangoBody → MangoResp)
    (fuel R : Nat) (Lv Lm : ℤ)
    (hR : parseReadSize opts.readSize = .ok R)
    (hLv : parseQueryLimit q.limit = .ok (.fin Lv))
    (hLm : parseQueryLimit mq.limit = .ok (.fin Lm))
    (hHv : ViewHonest vs) (hHm : MangoHonest ms) :
    ((filterView q opts vs fuel).emitted.length ≤ Lv.toNat
     ∧ (ViewNoSkip vs →
        (filterView q opts vs fuel).reqs.length ≤ (Lv.toNat + R - 1) / R))
    ∧ ((filterMango mq opts ms fuel).emitted.length ≤ Lm.toNat
     ∧ (MangoNoFalsy ms →
        (filterMango mq opts ms fuel).reqs.length ≤ (Lm.toNat + R - 1) / R)) := by
  have hRpos := parseReadSize_pos _ _ hR
  constructor
  · cases hk : q.keys with
    | none =>
      rw [filterView_eq_nokeys q opts vs fuel R (.fin Lv) hk hR hLv]
      exact ⟨viewLoop_emitted_bound vs R hHv hRpos fuel _ none 0 Lv rfl,
        fun hNS => viewLoop_reqs_bound vs R hHv hNS hRpos fuel _ none 0 Lv rfl⟩
    | some kv =>
      cases hpk : pushKeys kv with
      | error e =>
        rw [filterView_keys_error q opts vs fuel kv e hk hpk]
        exact ⟨by simp, fun _ => by simp⟩
      | ok ks =>
        rw [filterView_eq_keys q opts vs fuel R (.fin Lv) kv ks hk hpk hR hLv]
        exact ⟨viewLoop_emitted_bound vs R hHv hRpos fuel _ _ 0 Lv rfl,
          fun hNS => viewLoop_reqs_bound vs R hHv hNS hRpos fuel _ _ 0 Lv rfl⟩
  · rw [filterMango_eq mq opts ms fuel R (.fin Lm) hR hLm]
    exact ⟨mangoLoop_emitted_bound ms R hHm hRpos fuel _ 0 Lm rfl,
      fun hNF => mangoLoop_reqs_bound ms R hHm hNF hRpos fuel _ 0 Lm rfl⟩

/-- C3 counterexample: with `limit = 1`, `readSize = 1` and an honest
collaborator whose first page is a design-document row, the run issues 2
page requests, exceeding `ceil(L/R) = ceil(1/1) = 1`: skipped rows force
extra pages, so the claimed request bound does not hold as stated. -/
theorem c3_counterexample :
    ViewHonest designRowServer
    ∧ parseQueryLimit viewQueryL1.limit = .ok (.fin 1)
    ∧ parseReadSize optsR1.readSize = .ok 1
    ∧ (filterView viewQueryL1 optsR1 designRowServer 9).err = none
    ∧ (filterView viewQueryL1 optsR1 designRowServer 9).emitted.length = 1
    ∧ (filterView viewQueryL1 optsR1 designRowServer 9).reqs.length = 2
    ∧ ((1 : ℤ).toNat + 1 - 1) / 1 = 1
    ∧ ¬ (2 ≤ 1) := by
  refine ⟨?_, by decide, by decide, by decide, by decide, by decide,
    by decide, by decide⟩
  intro b hb
  cases hsk : b.startkey <;> simp [designRowServer, hsk] <;> omega

/-- C3 witness: a full-page collaborator with `limit = 2`,
`readSize = 1` stays within both bounds (2 documents, 2 requests). -/
theorem c3_bounds_witness :
    (filterView ⟨none, .num 2, none, none, none, none, none, none⟩ ⟨.num 1⟩
        replicateRowServer 9).emitted.length ≤ (2 : ℤ).toNat
    ∧ (filterView ⟨none, .num 2, none, none, none, none, none, none⟩ ⟨.num 1⟩
        replicateRowServer 9).reqs.length ≤ ((2 : ℤ).toNat + 1 - 1) / 1
    ∧ (filterMango ⟨[("s", .bool true)], .num 2, none⟩ ⟨.num 1⟩
        replicateMangoServer 9).emitted.length ≤ (2 : ℤ).toNat
    ∧ (filterMango ⟨[("s", .bool true)], .num 2, none⟩ ⟨.num 1⟩
        replicateMangoServer 9).reqs.length ≤ ((2 : ℤ).toNat + 1 - 1) / 1 := by
  have hHv : ViewHonest replicateRowServer := by
    intro b hb
    simp [replicateRowServer]
    omega
  have hNS : ViewNoSkip replicateRowServer := by
    intro b hb r hr
    simp [replicateRowServer] at hr
    rw [hr.2]
    decide
  have hHm : MangoHonest replicateMangoServer := by
    intro b hb
    simp [replicateMangoServer]
    omega
  have hNF : MangoNoFalsy replicateMangoServer := by
    intro b hb d hd
    simp [replicateMangoServer] at hd
    rw [hd.2]
    decide
  have h := c3_bounds ⟨none, .num 2, none, none, none, none, none, none⟩
    ⟨[("s", .bool true)], .num 2, none⟩ ⟨.num 1⟩ replicateRowServer
    replicateMangoServer 9 1 2 2 (by decide) (by decide) (by decide) hHv hHm
  exact ⟨h.1.1, h.1.2 hNS, h.2.1, h.2.2 hNF⟩

/-- C6: in `filterMango` with validated parameters, the first page
request carries no bookmark; every later request carries the bookmark of
the previous response together with the unchanged selector and
`limit = min(readSize, remainingLimit)`; every page except the last was
full (the iteration continues exactly while the page is full and the
remaining limit is positive, and stops when the remaining limit reaches
zero or a page comes up short); a non-empty `warning` field of any
response is surfaced in the side-effect list, and the run never raises
an error (beyond the fuel marker of the model). -/
theorem c6_mango_pagination (mq : MangoQuery) (opts : Options)
    (ms : MangoBody → MangoResp) (fuel R : Nat) (L : ELimit)
    (hR : parseReadSize opts.readSize = .ok R)
    (hL : parseQueryLimit mq.limit = .ok L) :
    (∀ r, (filterMango mq opts ms fuel).reqs.head? = some r →
        r.body.bookmark = none)
    ∧ (∀ p ∈ ((filterMango mq opts ms fuel).reqs.zip
              (filterMango mq opts ms fuel).reqs.tail),
        p.2.body.bookmark = (ms p.1.body).bookmark)
    ∧ (∀ r ∈ (filterMango mq opts ms fuel).reqs,
        r.body.selector = mq.selector
        ∧ r.body.limit = (L.subN r.emittedBefore).minR R)
    ∧ (∀ p ∈ ((filterMango mq opts ms fuel).reqs.zip
              (filterMango mq opts ms fuel).reqs.tail),
        ¬ (((ms p.1.body).docs.length : ℤ) < p.1.body.limit))
    ∧ ((filterMango mq opts ms fuel).err = none →
        ∀ r, lastOpt (filterMango mq opts ms fuel).reqs = some r →
          (((ms r.body).docs.length : ℤ) < r.body.limit)
          ∨ (L.subN (filterMango mq opts ms fuel).emitted.length).pos
            = false)
    ∧ (∀ r ∈ (filterMango mq opts ms fuel).reqs,
        ∀ w, (ms r.body).warning = some w → strFalsy w = false →
          w ∈ (filterMango mq opts ms fuel).warnings)
    ∧ ((filterMango mq opts ms fuel).err = none
        ∨ (filterMango mq opts ms fuel).err = some .fuel) := by
  rw [filterMango_eq mq opts ms fuel R L hR hL]
  refine ⟨?_, ?_, ?_, ?_, ?_, ?_, ?_⟩
  · intro r h
    rw [(mangoLoop_head ms R fuel _ L 0 r h).1]
  · exact mangoLoop_chain ms R fuel _ L 0
  · intro r hr
    refine ⟨mangoLoop_selector ms R fuel _ L 0 r hr, ?_⟩
    exact mangoLoop_reqs_limit ms R L fuel _ L 0 rfl
      (ELimit.subN_zero L).symm r hr
  · exact mangoLoop_nonshort ms R fuel _ L 0
  · intro he r hl
    exact mangoLoop_last ms R fuel _ L 0 r he hl
  · exact mangoLoop_warn ms R fuel _ L 0
  · exact mangoLoop_err ms R fuel _ L 0

/-- C6 witness: the concrete two-page run chains its bookmark, carries
the computed page sizes, surfaces the warning, and raises no error. -/
theorem c6_mango_pagination_witness :
    (filterMango mangoQueryL3 ⟨.num 2⟩ mangoTwoPageServer 9).warnings
      = ["w1"]
    ∧ (filterMango mangoQueryL3 ⟨.num 2⟩ mangoTwoPageServer 9).err = none
    ∧ (MangoReqLog.mk ⟨some "bk1", [("s", DVal.bool true)], 1, some 0⟩
          2).body.bookmark
      = (mangoTwoPageServer (MangoReqLog.mk
          ⟨none, [("s", DVal.bool true)], 2, none⟩ 0).body).bookmark
    ∧ (MangoReqLog.mk ⟨none, [("s", DVal.bool true)], 2, none⟩
          0).body.selector = mangoQueryL3.selector
    ∧ "w1" ∈ (filterMango mangoQueryL3 ⟨.num 2⟩ mangoTwoPageServer
        9).warnings := by
  have h := c6_mango_pagination mangoQueryL3 ⟨.num 2⟩ mangoTwoPageServer 9 2
    (.fin 3) (by decide) (by decide)
  refine ⟨by decide, by decide, ?_, ?_, ?_⟩
  · exact h.2.1
      (MangoReqLog.mk ⟨none, [("s", DVal.bool true)], 2, none⟩ 0,
       MangoReqLog.mk ⟨some "bk1", [("s", DVal.bool true)], 1, some 0⟩ 2)
      (by decide)
  · exact (h.2.2.1
      (MangoReqLog.mk ⟨none, [("s", DVal.bool true)], 2, none⟩ 0)
      (by decide)).1
  · exact h.2.2.2.2.2.1
      (MangoReqLog.mk ⟨none, [("s", DVal.bool true)], 2, none⟩ 0)
      (by decide) "w1" (by decide) (by decide)
